import Mathlib

/-!
Verification of the tree filter / expand / highlight engine of the
atlas-comparison tree viewer (`src/App.tsx`).

The data model and the operations are shallowly embedded from the source:
`RegionNode` (a tree node with an optional `children` field, rendered here
as a mutual inductive `RegionNode` / `Children` / `Forest` so that all
operations are structurally recursive), `getAllKeys` (pre-order key
collection), `filterTree` (search filter preserving ancestor paths),
`highlightText` (first-occurrence highlight formatter), `onExpand` (manual
expansion toggle), `filteredData` (the derived filtered tree), the
auto-expand effect, the match counter, and the load effect's
success/failure handling.

JavaScript strings are modelled through their character lists;
`toLowerCase`, `trim`, `includes`, `indexOf` and `slice` are given explicit
ASCII-faithful definitions below.
-/

/-- JavaScript `toLowerCase`, character-wise (ASCII-faithful model of the JavaScript
`String.prototype.toLowerCase`). -/
def lowerStr (s : String) : String :=
  ⟨s.data.map Char.toLower⟩

/-- JavaScript `trim`: remove whitespace from both ends (model of the JavaScript
`String.prototype.trim`). -/
def trimStr (s : String) : String :=
  ⟨((s.data.dropWhile Char.isWhitespace).reverse.dropWhile Char.isWhitespace).reverse⟩

/-- Leftmost index at which `pat` occurs in a character list, if any
(the JavaScript `indexOf`, with `none` standing for `-1`; the empty
pattern occurs at index 0). -/
def charIndexOf (pat : List Char) : List Char → Option Nat
  | [] => if List.isPrefixOf pat [] then some 0 else none
  | c :: rest =>
      if List.isPrefixOf pat (c :: rest) then some 0
      else Option.map (· + 1) (charIndexOf pat rest)

/-- The JavaScript `text.indexOf(pat)` on strings. -/
def strIndexOf (text pat : String) : Option Nat :=
  charIndexOf pat.data text.data

/-- The JavaScript `text.includes(pat)`: substring containment, `indexOf` not `-1`. -/
def strIncludes (text pat : String) : Bool :=
  (strIndexOf text pat).isSome

/-- The JavaScript `text.slice(0, n)`. -/
def strTake (s : String) (n : Nat) : String :=
  ⟨s.data.take n⟩

/-- The JavaScript `text.slice(n)` (from `n` to the end). -/
def strDrop (s : String) (n : Nat) : String :=
  ⟨s.data.drop n⟩

/-- The JavaScript `text.slice(start, stop)` for non-negative in-range-clamped indices. -/
def strSlice (s : String) (start stop : Nat) : String :=
  ⟨(s.data.take stop).drop start⟩

/-- The JavaScript `text.length`. -/
def strLength (s : String) : Nat :=
  s.data.length

/-- One output fragment of the highlight formatter.  The source returns a
React fragment `{before}<mark>{match}</mark>{after}` or the bare string;
we record each piece together with whether it is wrapped in `<mark>`. -/
inductive Segment : Type where
  | plain (text : String) : Segment
  | matched (text : String) : Segment
deriving DecidableEq, Repr

/-- Function `highlightText` from `App.tsx` (lines 9–29): highlight the leftmost
case-insensitive occurrence of `search` in `text`. -/
def highlightText (text search : String) : List Segment :=
  if trimStr search = "" || text = "" then [Segment.plain text]
  else
    let searchLower := lowerStr search
    let textLower := lowerStr text
    match strIndexOf textLower searchLower with
    | none => [Segment.plain text]
    | some index =>
        let before := strTake text index
        let matchSpan := strSlice text index (index + strLength search)
        let after := strDrop text (index + strLength search)
        [Segment.plain before, Segment.matched matchSpan, Segment.plain after]

/-- The segments that actually render visibly: React renders an empty
string fragment as nothing, so empty segments are invisible. -/
def visibleSegments (segs : List Segment) : List Segment :=
  segs.filter fun s =>
    match s with
    | .plain t => t ≠ ""
    | .matched t => t ≠ ""

/-- An atlas value stored on a region node: the input file supplies
`string | null` for each atlas key. -/
inductive Value : Type where
  | str (s : String) : Value
  | null : Value
deriving DecidableEq, Repr

mutual
/-- A region tree node, from `interface RegionNode` in `App.tsx`: `key`,
`id`, `name`, the per-atlas fields (an association list from atlas key to
value, read by `node[atlasKey]`), and the optional `children` field
(`children?: RegionNode[]` — absent is distinct from present-but-empty). -/
inductive RegionNode : Type where
  | mk (key : String) (id : Int) (name : String)
      (atlas : List (String × Value)) (children : Children) : RegionNode
  deriving DecidableEq
/-- The optional `children` field of a node: `undefined` or an array. -/
inductive Children : Type where
  | none : Children
  | some (forest : Forest) : Children
  deriving DecidableEq
/-- An ordered sequence of region nodes (`RegionNode[]`). -/
inductive Forest : Type where
  | nil : Forest
  | cons (head : RegionNode) (tail : Forest) : Forest
  deriving DecidableEq
end

def RegionNode.key : RegionNode → String
  | .mk k _ _ _ _ => k

def RegionNode.id : RegionNode → Int
  | .mk _ i _ _ _ => i

def RegionNode.name : RegionNode → String
  | .mk _ _ n _ _ => n

def RegionNode.atlas : RegionNode → List (String × Value)
  | .mk _ _ _ a _ => a

def RegionNode.children : RegionNode → Children
  | .mk _ _ _ _ c => c

/-- The JavaScript truthiness test `filteredChildren && filteredChildren.length > 0`:
the children field is present and the array is non-empty. -/
def Children.hasNodes : Children → Bool
  | .none => false
  | .some .nil => false
  | .some (.cons _ _) => true

mutual
/-- Inner `traverse` of `getAllKeys` (`App.tsx` lines 126–133): pushes each
node's key onto the accumulator, then descends into its children, then
moves to its right siblings. -/
def traverseKeys : Forest → List String → List String
  | .nil, keys => keys
  | .cons (.mk k _ _ _ c) rest, keys => traverseKeys rest (traverseChildKeys c (keys ++ [k]))
/-- Descend into a `children` field when present (`if (item.children)`). -/
def traverseChildKeys : Children → List String → List String
  | .none, keys => keys
  | .some f, keys => traverseKeys f keys
end

/-- Function `getAllKeys` from `App.tsx` (lines 124–136): collect all keys of a
forest, starting from an empty accumulator. -/
def getAllKeys (nodes : Forest) : List String :=
  traverseKeys nodes []

mutual
/-- Modelled from the spec (§4.1): the pre-order flattening `collectKeys` —
visit each node, emit its key, then recurse into its children in order. -/
def preorderKeys : Forest → List String
  | .nil => []
  | .cons n rest => nodeKeys n ++ preorderKeys rest
def nodeKeys : RegionNode → List String
  | .mk k _ _ _ c => k :: childKeys c
def childKeys : Children → List String
  | .none => []
  | .some f => preorderKeys f
end

/-- Predicate `nameMatch` (`App.tsx` line 153): the node name contains the
(already lower-cased) query, after lower-casing. -/
def nameMatches (searchLower : String) (node : RegionNode) : Bool :=
  strIncludes (lowerStr node.name) searchLower

/-- Predicate `acronymMatch` (`App.tsx` lines 154–157): some atlas key holds a string
value containing the query; any non-string value (in particular `null`)
never matches. -/
def atlasMatches (atlasKeys : List String) (searchLower : String) (node : RegionNode) : Bool :=
  atlasKeys.any fun key =>
    match List.lookup key node.atlas with
    | Option.some (Value.str s) => strIncludes (lowerStr s) searchLower
    | _ => false

/-- A node self-matches when its name or one of its atlas values matches. -/
def selfMatches (atlasKeys : List String) (searchLower : String) (node : RegionNode) : Bool :=
  nameMatches searchLower node || atlasMatches atlasKeys searchLower node

mutual
/-- Function `filterTree` from `App.tsx` (lines 149–173): keep a node iff it
self-matches or its filtered children are non-empty; the emitted node gets
the filtered children, demoted to no-children when the filtered array is
empty. -/
def filterTree (atlasKeys : List String) (searchLower : String) : Forest → Forest
  | .nil => .nil
  | .cons (.mk k i nm a c) rest =>
      let fc := filterChildren atlasKeys searchLower c
      if nameMatches searchLower (.mk k i nm a c)
          || atlasMatches atlasKeys searchLower (.mk k i nm a c)
          || fc.hasNodes then
        .cons (.mk k i nm a (if fc.hasNodes then fc else .none))
          (filterTree atlasKeys searchLower rest)
      else
        filterTree atlasKeys searchLower rest
/-- Source line `if (node.children) filteredChildren = filterTree(node.children, ...)`. -/
def filterChildren (atlasKeys : List String) (searchLower : String) : Children → Children
  | .none => .none
  | .some f => .some (filterTree atlasKeys searchLower f)
end

/-- Derivation `filteredData` (`App.tsx` lines 175–177): the filter runs on the
lower-cased query only when the trimmed query is non-empty; otherwise the
original `data` value is returned unchanged. -/
def filteredData (atlasKeys : List String) (data : Forest) (searchText : String) : Forest :=
  if trimStr searchText = "" then data
  else filterTree atlasKeys (lowerStr searchText) data

/-- The auto-expand effect (`App.tsx` lines 180–184): while the trimmed
query is non-empty the expansion set is replaced by the keys of the
filtered tree; otherwise the previous set is left as it is. -/
def autoExpandEffect (atlasKeys : List String) (data : Forest) (searchText : String)
    (prevExpanded : List String) : List String :=
  if trimStr searchText = "" then prevExpanded
  else getAllKeys (filteredData atlasKeys data searchText)

/-- The match counter (`App.tsx` line 231): `getAllKeys(filteredData).length`. -/
def matchCount (atlasKeys : List String) (data : Forest) (searchText : String) : Nat :=
  (getAllKeys (filteredData atlasKeys data searchText)).length

/-- Handler `onExpand` (`App.tsx` lines 187–193): expanding appends the record's
key; collapsing removes every occurrence of it. -/
def onExpand (expanded : Bool) (record : RegionNode) (prev : List String) : List String :=
  if expanded then prev ++ [record.key]
  else prev.filter fun k => k ≠ record.key

/-- The attributes of a node other than its `children` field: everything
`{...node}` copies that the filter does not overwrite. -/
structure NodeAttrs : Type where
  key : String
  id : Int
  name : String
  atlas : List (String × Value)
deriving DecidableEq, Repr

/-- Project a node to its children-independent attributes. -/
def RegionNode.attrs : RegionNode → NodeAttrs
  | .mk k i n a _ => ⟨k, i, n, a⟩

mutual
/-- Pre-order list of the children-independent attributes of all nodes. -/
def preorderAttrs : Forest → List NodeAttrs
  | .nil => []
  | .cons n rest => nodeAttrs n ++ preorderAttrs rest
def nodeAttrs : RegionNode → List NodeAttrs
  | .mk k i n a c => ⟨k, i, n, a⟩ :: childAttrs c
def childAttrs : Children → List NodeAttrs
  | .none => []
  | .some f => preorderAttrs f
end

mutual
/-- Pre-order list of all nodes of a forest (with their subtrees). -/
def preorderNodes : Forest → List RegionNode
  | .nil => []
  | .cons n rest => subtreeNodes n ++ preorderNodes rest
def subtreeNodes : RegionNode → List RegionNode
  | .mk k i n a c => RegionNode.mk k i n a c :: childNodes c
def childNodes : Children → List RegionNode
  | .none => []
  | .some f => preorderNodes f
end

mutual
/-- Does some node of the forest (at any depth) satisfy `p`? -/
def anyNode (p : RegionNode → Bool) : Forest → Bool
  | .nil => false
  | .cons n rest => subtreeAny p n || anyNode p rest
def subtreeAny (p : RegionNode → Bool) : RegionNode → Bool
  | .mk k i n a c => p (.mk k i n a c) || childAny p c
def childAny (p : RegionNode → Bool) : Children → Bool
  | .none => false
  | .some f => anyNode p f
end

mutual
/-- Soundness of a filtered forest: every node of it, at any depth, either
self-matches or has a self-matching node somewhere below its children. -/
def forestSound (atlasKeys : List String) (searchLower : String) : Forest → Bool
  | .nil => true
  | .cons n rest => nodeSound atlasKeys searchLower n && forestSound atlasKeys searchLower rest
def nodeSound (atlasKeys : List String) (searchLower : String) : RegionNode → Bool
  | .mk k i n a c =>
      (selfMatches atlasKeys searchLower (.mk k i n a c)
        || childAny (selfMatches atlasKeys searchLower) c)
      && childSound atlasKeys searchLower c
def childSound (atlasKeys : List String) (searchLower : String) : Children → Bool
  | .none => true
  | .some f => forestSound atlasKeys searchLower f
end

mutual
/-- Pre-order attributes of exactly the self-matching nodes of a forest. -/
def matchingAttrs (atlasKeys : List String) (searchLower : String) : Forest → List NodeAttrs
  | .nil => []
  | .cons (.mk k i n a c) rest =>
      (if selfMatches atlasKeys searchLower (.mk k i n a c) then [⟨k, i, n, a⟩] else [])
        ++ matchingChildAttrs atlasKeys searchLower c ++ matchingAttrs atlasKeys searchLower rest
def matchingChildAttrs (atlasKeys : List String) (searchLower : String) : Children → List NodeAttrs
  | .none => []
  | .some f => matchingAttrs atlasKeys searchLower f
end

mutual
/-- Observational equivalence of forests: equal node attributes and
equivalent children, where an absent `children` field is identified with a
present-but-empty one (both render as a leaf). -/
def forestEquiv : Forest → Forest → Bool
  | .nil, .nil => true
  | .cons a as, .cons b bs => nodeEquiv a b && forestEquiv as bs
  | .nil, .cons _ _ => false
  | .cons _ _, .nil => false
def nodeEquiv : RegionNode → RegionNode → Bool
  | .mk k1 i1 n1 a1 c1, .mk k2 i2 n2 a2 c2 =>
      k1 == k2 && i1 == i2 && n1 == n2 && a1 == a2 && childEquiv c1 c2
def childEquiv : Children → Children → Bool
  | .none, .none => true
  | .none, .some .nil => true
  | .some .nil, .none => true
  | .some f1, .some f2 => forestEquiv f1 f2
  | .none, .some (.cons _ _) => false
  | .some (.cons _ _), .none => false
end

/-- The shape of the fetched document (`interface RegionData`). -/
structure RegionData : Type where
  atlases : List String
  atlasKeys : List String
  totalRegions : Nat
  regions : Forest
deriving DecidableEq

/-- The state containers the load effect touches, plus the console log.
Initial values are those of the `useState` initializers in `App.tsx`. -/
structure AppState : Type where
  data : Forest
  atlases : List String
  atlasKeys : List String
  totalRegions : Nat
  loading : Bool
  errorLog : List String
deriving DecidableEq

/-- The state at startup (`App.tsx` lines 47–53): everything empty, the
loading flag set. -/
def initialAppState : AppState :=
  { data := .nil, atlases := [], atlasKeys := [], totalRegions := 0,
    loading := true, errorLog := [] }

/-- Outcome of the single startup fetch: a parsed document, or an error
(network or parse) that rejects the promise chain. -/
inductive FetchOutcome : Type where
  | success (result : RegionData) : FetchOutcome
  | failure (err : String) : FetchOutcome

/-- The load effect (`App.tsx` lines 77–91), run exactly once (empty
dependency array): on success all four data states are set and loading is
cleared; on failure the error is logged and only loading is cleared. -/
def loadEffect (s : AppState) : FetchOutcome → AppState
  | .success r =>
      { s with data := r.regions, atlases := r.atlases,
               atlasKeys := r.atlasKeys, totalRegions := r.totalRegions,
               loading := false }
  | .failure err =>
      { s with loading := false,
               errorLog := s.errorLog ++ ["Failed to load regions: " ++ err] }

/-- The dataset of the spec's end-to-end scenario (§8): one root `r1`
("Cortex", `A1: null`) with a single child `r2` ("Visual Cortex",
`A1: "VISp"`). -/
def demoForest : Forest :=
  .cons (.mk "r1" 1 "Cortex" [("A1", Value.null)]
    (.some (.cons (.mk "r2" 2 "Visual Cortex" [("A1", Value.str "VISp")] .none) .nil))) .nil

/-! ## Helper lemmas -/

mutual
theorem traverse_append : ∀ (f : Forest) (acc : List String),
    traverseKeys f acc = acc ++ preorderKeys f := by
  intro f acc
  cases f with
  | nil => simp [traverseKeys, preorderKeys]
  | cons n rest =>
      cases n with
      | mk k i nm a c =>
          simp [traverseKeys, preorderKeys, nodeKeys, traverse_append rest,
            traverseChild_append c]
theorem traverseChild_append : ∀ (c : Children) (acc : List String),
    traverseChildKeys c acc = acc ++ childKeys c := by
  intro c acc
  cases c with
  | none => simp [traverseChildKeys, childKeys]
  | some f => simp [traverseChildKeys, childKeys, traverse_append f]
end

/-! ## Claim theorems -/

/-- C5.  Traversal completeness: `getAllKeys` (the code's push-based
`collectKeys`) returns exactly the pre-order flattening of the node keys —
each node's key before its children's keys, children and siblings in
order, nothing added, dropped or duplicated beyond input duplicates. -/
theorem getAllKeys_preorder (nodes : Forest) : getAllKeys nodes = preorderKeys nodes := by
  simp [getAllKeys, traverse_append]

/-- C7.  Manual toggle semantics: expanding makes the key-membership of
the expansion state `S ∪ {R.key}`; collapsing makes it `S − {R.key}` with
every occurrence of the key removed; all other keys keep their
membership, and only membership matters. -/
theorem onExpand_toggle (prev : List String) (record : RegionNode) (k : String) :
    (k ∈ onExpand true record prev ↔ (k ∈ prev ∨ k = record.key))
    ∧ (k ∈ onExpand false record prev ↔ (k ∈ prev ∧ k ≠ record.key)) := by
  constructor
  · simp [onExpand]
  · simp [onExpand]

/-- C9.  Load-failure handling: if the single startup fetch fails, the
error is logged, the loading flag is cleared, and the data states keep
their initial empty values; the model applies the effect exactly once (the
source effect has an empty dependency array), so no retry occurs. -/
theorem loadFailure_state (err : String) :
    (loadEffect initialAppState (FetchOutcome.failure err)).loading = false
    ∧ (loadEffect initialAppState (FetchOutcome.failure err)).data = Forest.nil
    ∧ (loadEffect initialAppState (FetchOutcome.failure err)).atlases = []
    ∧ (loadEffect initialAppState (FetchOutcome.failure err)).atlasKeys = []
    ∧ (loadEffect initialAppState (FetchOutcome.failure err)).totalRegions = 0
    ∧ (loadEffect initialAppState (FetchOutcome.failure err)).errorLog
        = ["Failed to load regions: " ++ err] := by
  simp [loadEffect, initialAppState]

/-- One-step unfolding of `filterTree` at a cons cell. -/
theorem filterTree_cons (atlasKeys : List String) (searchLower : String)
    (k : String) (i : Int) (nm : String) (a : List (String × Value))
    (c : Children) (rest : Forest) :
    filterTree atlasKeys searchLower (.cons (.mk k i nm a c) rest) =
      if nameMatches searchLower (.mk k i nm a c)
          || atlasMatches atlasKeys searchLower (.mk k i nm a c)
          || (filterChildren atlasKeys searchLower c).hasNodes then
        .cons (.mk k i nm a
            (if (filterChildren atlasKeys searchLower c).hasNodes
              then filterChildren atlasKeys searchLower c else .none))
          (filterTree atlasKeys searchLower rest)
      else filterTree atlasKeys searchLower rest := rfl

/-- Whether a node self-matches does not depend on its children. -/
theorem selfMatches_children_irrel (atlasKeys : List String) (searchLower : String)
    (k : String) (i : Int) (nm : String) (a : List (String × Value))
    (c c2 : Children) :
    selfMatches atlasKeys searchLower (.mk k i nm a c)
      = selfMatches atlasKeys searchLower (.mk k i nm a c2) := rfl

mutual
/-- A filtered forest is empty or contains a self-matching node. -/
theorem filterTree_nil_or_any (atlasKeys : List String) (searchLower : String) :
    ∀ f : Forest, filterTree atlasKeys searchLower f = .nil
      ∨ anyNode (selfMatches atlasKeys searchLower)
          (filterTree atlasKeys searchLower f) = true := by
  intro f
  cases f with
  | nil => exact Or.inl rfl
  | cons n rest =>
      cases n with
      | mk k i nm a c =>
          rcases hsm : selfMatches atlasKeys searchLower (RegionNode.mk k i nm a c) with hv | hv
          · rcases hfc : (filterChildren atlasKeys searchLower c).hasNodes with hv2 | hv2
            · -- dropped node
              have hrest := filterTree_nil_or_any atlasKeys searchLower rest
              have hsm2 := hsm
              simp [selfMatches] at hsm2
              rcases hrest with h | h
              · exact Or.inl (by simp [filterTree_cons, hsm2, hfc, h])
              · exact Or.inr (by simp [filterTree_cons, hsm2, hfc, h])
            · -- kept through children
              right
              have hsm2 := hsm
              simp [selfMatches] at hsm2
              have hc := filterChildren_any atlasKeys searchLower c
              rcases hc with h | h
              · rw [hfc] at h; cases h
              · simp [filterTree_cons, hsm2, hfc, anyNode, subtreeAny, h]
          · -- self-matching node kept
            right
            have hsm2 := hsm
            simp [selfMatches] at hsm2
            rcases hsm2 with h | h
            · simp only [nameMatches, RegionNode.name] at h
              simp [filterTree_cons, anyNode, subtreeAny, selfMatches,
                nameMatches, RegionNode.name, h]
            · simp only [atlasMatches, RegionNode.atlas] at h
              simp [filterTree_cons, anyNode, subtreeAny, selfMatches,
                atlasMatches, RegionNode.atlas, h]
theorem filterChildren_any (atlasKeys : List String) (searchLower : String) :
    ∀ c : Children, (filterChildren atlasKeys searchLower c).hasNodes = false
      ∨ childAny (selfMatches atlasKeys searchLower)
          (filterChildren atlasKeys searchLower c) = true := by
  intro c
  cases c with
  | none => exact Or.inl rfl
  | some f =>
      rcases filterTree_nil_or_any atlasKeys searchLower f with h | h
      · exact Or.inl (by simp [filterChildren, h, Children.hasNodes])
      · exact Or.inr (by simp [filterChildren, childAny, h])
end

mutual
/-- Every node of a filtered forest self-matches or has a self-matching
node below it, recursively at every depth. -/
theorem filterTree_forestSound (atlasKeys : List String) (searchLower : String) :
    ∀ f : Forest,
      forestSound atlasKeys searchLower (filterTree atlasKeys searchLower f) = true := by
  intro f
  cases f with
  | nil => rfl
  | cons n rest =>
      cases n with
      | mk k i nm a c =>
          have hrest := filterTree_forestSound atlasKeys searchLower rest
          have hcs := filterChildren_childSound atlasKeys searchLower c
          rcases hfc : (filterChildren atlasKeys searchLower c).hasNodes with hv | hv
          · rcases hk : nameMatches searchLower (RegionNode.mk k i nm a c) with hv2 | hv2
            · rcases hk2 : atlasMatches atlasKeys searchLower (RegionNode.mk k i nm a c) with hv3 | hv3
              · simp [filterTree_cons, hk, hk2, hfc, hrest]
              · simp only [atlasMatches, RegionNode.atlas] at hk2
                simp [filterTree_cons, hk, hk2, hfc, forestSound, nodeSound, childSound,
                  selfMatches, atlasMatches, RegionNode.atlas, hrest]
            · simp only [nameMatches, RegionNode.name] at hk
              simp [filterTree_cons, hk, hfc, forestSound, nodeSound, childSound,
                selfMatches, nameMatches, RegionNode.name, hrest]
          · rcases filterChildren_any atlasKeys searchLower c with h | h
            · rw [hfc] at h; cases h
            · simp [filterTree_cons, hfc, forestSound, nodeSound, childSound,
                selfMatches, hrest, h, hcs]
theorem filterChildren_childSound (atlasKeys : List String) (searchLower : String) :
    ∀ c : Children,
      childSound atlasKeys searchLower (filterChildren atlasKeys searchLower c) = true := by
  intro c
  cases c with
  | none => rfl
  | some f =>
      have := filterTree_forestSound atlasKeys searchLower f
      simp [filterChildren, childSound, this]
end

/-- C1.  Filter soundness: for every tree and every query whose trimmed
form is non-empty, every node appearing in `filterTree(tree, query)`
either self-matches (its name or some string atlas value contains the
query case-insensitively) or has at least one descendant that
self-matches. -/
theorem filterTree_sound (atlasKeys : List String) (q : String) (tree : Forest)
    (hq : trimStr q ≠ "") :
    forestSound atlasKeys (lowerStr q) (filterTree atlasKeys (lowerStr q) tree) = true :=
  filterTree_forestSound atlasKeys (lowerStr q) tree

/-- Witness for C1 at the spec's end-to-end dataset and the query `visp`. -/
theorem filterTree_sound_witness :
    forestSound ["A1"] (lowerStr "visp") (filterTree ["A1"] (lowerStr "visp") demoForest) = true :=
  filterTree_sound ["A1"] "visp" demoForest (by decide)

/-- A children field that fails the `hasNodes` test carries no attributes. -/
theorem childAttrs_eq_nil_of_not_hasNodes :
    ∀ c : Children, c.hasNodes = false → childAttrs c = [] := by
  intro c h
  cases c with
  | none => rfl
  | some f =>
      cases f with
      | nil => rfl
      | cons n t => cases h

mutual
/-- The pre-order attributes of a filtered forest form a sublist of the
pre-order attributes of the input forest. -/
theorem filterTree_attrs_sublist (atlasKeys : List String) (searchLower : String) :
    ∀ f : Forest,
      List.Sublist (preorderAttrs (filterTree atlasKeys searchLower f)) (preorderAttrs f) := by
  intro f
  cases f with
  | nil => simp [filterTree, preorderAttrs]
  | cons n rest =>
      cases n with
      | mk k i nm a c =>
          have hrest := filterTree_attrs_sublist atlasKeys searchLower rest
          have hc := filterChildren_attrs_sublist atlasKeys searchLower c
          rcases hk : (nameMatches searchLower (RegionNode.mk k i nm a c)
              || atlasMatches atlasKeys searchLower (RegionNode.mk k i nm a c)
              || (filterChildren atlasKeys searchLower c).hasNodes) with hv | hv
          · rw [filterTree_cons, if_neg (by simp [hk])]
            exact hrest.trans (List.sublist_append_right _ _)
          · rw [filterTree_cons, if_pos (by simp [hk])]
            have hnewc : List.Sublist
                (childAttrs (if (filterChildren atlasKeys searchLower c).hasNodes
                  then filterChildren atlasKeys searchLower c else Children.none))
                (childAttrs c) := by
              rcases hfc : (filterChildren atlasKeys searchLower c).hasNodes with hv2 | hv2
              · simp [hfc, childAttrs]
              · simpa [hfc] using hc
            exact (hnewc.append hrest).cons₂ _
theorem filterChildren_attrs_sublist (atlasKeys : List String) (searchLower : String) :
    ∀ c : Children,
      List.Sublist (childAttrs (filterChildren atlasKeys searchLower c)) (childAttrs c) := by
  intro c
  cases c with
  | none => simp [filterChildren, childAttrs]
  | some f => simpa [filterChildren, childAttrs] using filterTree_attrs_sublist atlasKeys searchLower f
end

mutual
/-- The attributes of the self-matching nodes of a forest form a sublist of
the pre-order attributes of the filtered forest: every self-matching node
survives the filter, in order. -/
theorem matchingAttrs_sublist_filter (atlasKeys : List String) (searchLower : String) :
    ∀ f : Forest,
      List.Sublist (matchingAttrs atlasKeys searchLower f)
        (preorderAttrs (filterTree atlasKeys searchLower f)) := by
  intro f
  cases f with
  | nil => simp [matchingAttrs, filterTree, preorderAttrs]
  | cons n rest =>
      cases n with
      | mk k i nm a c =>
          have hrest := matchingAttrs_sublist_filter atlasKeys searchLower rest
          have hc := matchingChildAttrs_sublist_filter atlasKeys searchLower c
          rcases hsm : selfMatches atlasKeys searchLower (RegionNode.mk k i nm a c) with hv | hv
          · have hsm2 : nameMatches searchLower (RegionNode.mk k i nm a c) = false
                ∧ atlasMatches atlasKeys searchLower (RegionNode.mk k i nm a c) = false := by
              simpa [selfMatches] using hsm
            rcases hfc : (filterChildren atlasKeys searchLower c).hasNodes with hv2 | hv2
            · have hnil : childAttrs (filterChildren atlasKeys searchLower c) = [] :=
                childAttrs_eq_nil_of_not_hasNodes _ hfc
              have hmca : matchingChildAttrs atlasKeys searchLower c = [] :=
                List.sublist_nil.mp (by rw [hnil] at hc; exact hc)
              rw [filterTree_cons, if_neg (by simp [hsm2.1, hsm2.2, hfc])]
              simpa [matchingAttrs, hsm, hmca] using hrest
            · rw [filterTree_cons, if_pos (by simp [hfc])]
              have hbody : List.Sublist
                  (matchingChildAttrs atlasKeys searchLower c ++ matchingAttrs atlasKeys searchLower rest)
                  (childAttrs (filterChildren atlasKeys searchLower c)
                    ++ preorderAttrs (filterTree atlasKeys searchLower rest)) :=
                hc.append hrest
              simpa [matchingAttrs, hsm, hfc, preorderAttrs, nodeAttrs, childAttrs]
                using hbody.cons (⟨k, i, nm, a⟩ : NodeAttrs)
          · have hsm2 : nameMatches searchLower (RegionNode.mk k i nm a c) = true
                ∨ atlasMatches atlasKeys searchLower (RegionNode.mk k i nm a c) = true := by
              simpa [selfMatches] using hsm
            have hnewc : List.Sublist (matchingChildAttrs atlasKeys searchLower c)
                (childAttrs (if (filterChildren atlasKeys searchLower c).hasNodes
                  then filterChildren atlasKeys searchLower c else Children.none)) := by
              rcases hfc : (filterChildren atlasKeys searchLower c).hasNodes with hv2 | hv2
              · have hnil : childAttrs (filterChildren atlasKeys searchLower c) = [] :=
                  childAttrs_eq_nil_of_not_hasNodes _ hfc
                have hmca : matchingChildAttrs atlasKeys searchLower c = [] :=
                  List.sublist_nil.mp (by rw [hnil] at hc; exact hc)
                simp [hmca]
              · simpa [hfc] using hc
            rcases hsm2 with h | h
            · rw [filterTree_cons, if_pos (by simp [h])]
              simpa [matchingAttrs, hsm, preorderAttrs, nodeAttrs]
                using (hnewc.append hrest).cons₂ (⟨k, i, nm, a⟩ : NodeAttrs)
            · rw [filterTree_cons, if_pos (by simp [h])]
              simpa [matchingAttrs, hsm, preorderAttrs, nodeAttrs]
                using (hnewc.append hrest).cons₂ (⟨k, i, nm, a⟩ : NodeAttrs)
theorem matchingChildAttrs_sublist_filter (atlasKeys : List String) (searchLower : String) :
    ∀ c : Children,
      List.Sublist (matchingChildAttrs atlasKeys searchLower c)
        (childAttrs (filterChildren atlasKeys searchLower c)) := by
  intro c
  cases c with
  | none => simp [matchingChildAttrs, filterChildren, childAttrs]
  | some f =>
      simpa [matchingChildAttrs, filterChildren, childAttrs]
        using matchingAttrs_sublist_filter atlasKeys searchLower f
end

/-- C2.  Filter completeness with order preservation: for every tree and
every query whose trimmed form is non-empty, every self-matching node of
the input appears in `filterTree`'s result with its non-children
attributes intact (children possibly pruned), and the filtered pre-order
—hence the relative order of all retained nodes, siblings included— is a
subsequence of the input pre-order. -/
theorem filterTree_complete_order (atlasKeys : List String) (q : String) (tree : Forest)
    (hq : trimStr q ≠ "") :
    List.Sublist (matchingAttrs atlasKeys (lowerStr q) tree)
        (preorderAttrs (filterTree atlasKeys (lowerStr q) tree))
    ∧ List.Sublist (preorderAttrs (filterTree atlasKeys (lowerStr q) tree))
        (preorderAttrs tree) :=
  ⟨matchingAttrs_sublist_filter atlasKeys (lowerStr q) tree,
   filterTree_attrs_sublist atlasKeys (lowerStr q) tree⟩

/-- Witness for C2 at the spec's end-to-end dataset and the query `visp`. -/
theorem filterTree_complete_order_witness :
    List.Sublist (matchingAttrs ["A1"] (lowerStr "visp") demoForest)
        (preorderAttrs (filterTree ["A1"] (lowerStr "visp") demoForest))
    ∧ List.Sublist (preorderAttrs (filterTree ["A1"] (lowerStr "visp") demoForest))
        (preorderAttrs demoForest) :=
  filterTree_complete_order ["A1"] "visp" demoForest (by decide)

mutual
/-- Pre-order attributes are the attribute projections of the pre-order
node list. -/
theorem preorderAttrs_eq_map : ∀ f : Forest,
    preorderAttrs f = (preorderNodes f).map RegionNode.attrs := by
  intro f
  cases f with
  | nil => rfl
  | cons n rest =>
      simp [preorderAttrs, preorderNodes, nodeAttrs_eq_map n, preorderAttrs_eq_map rest]
theorem nodeAttrs_eq_map : ∀ n : RegionNode,
    nodeAttrs n = (subtreeNodes n).map RegionNode.attrs := by
  intro n
  cases n with
  | mk k i nm a c =>
      simp [nodeAttrs, subtreeNodes, RegionNode.attrs, childAttrs_eq_map c]
theorem childAttrs_eq_map : ∀ c : Children,
    childAttrs c = (childNodes c).map RegionNode.attrs := by
  intro c
  cases c with
  | none => rfl
  | some f => simp [childAttrs, childNodes, preorderAttrs_eq_map f]
end

/-- Equal attribute projections mean equal key, id, name and atlas fields. -/
theorem attrs_eq_fields (m n : RegionNode) (h : m.attrs = n.attrs) :
    m.key = n.key ∧ m.id = n.id ∧ m.name = n.name ∧ m.atlas = n.atlas := by
  cases m with
  | mk k1 i1 n1 a1 c1 =>
      cases n with
      | mk k2 i2 n2 a2 c2 =>
          simp only [RegionNode.attrs, NodeAttrs.mk.injEq] at h
          simp [RegionNode.key, RegionNode.id, RegionNode.name, RegionNode.atlas, h.1, h.2.1,
            h.2.2.1, h.2.2.2]

/-- C10.  Frame property of the filter: with a non-empty-after-trim query,
every node emitted by `filterTree` is a copy of exactly one input node in
which only the `children` field differs — the filtered pre-order
attributes embed order-preservingly (hence one-to-one) into the input's,
and each emitted node agrees with some input node on `key`, `id`, `name`
and every atlas value. -/
theorem filterTree_frame (atlasKeys : List String) (q : String) (tree : Forest)
    (hq : trimStr q ≠ "") :
    List.Sublist (preorderAttrs (filterTree atlasKeys (lowerStr q) tree)) (preorderAttrs tree)
    ∧ ∀ m ∈ preorderNodes (filterTree atlasKeys (lowerStr q) tree),
        ∃ n, n ∈ preorderNodes tree ∧ m.key = n.key ∧ m.id = n.id
          ∧ m.name = n.name ∧ m.atlas = n.atlas := by
  refine ⟨filterTree_attrs_sublist atlasKeys (lowerStr q) tree, ?_⟩
  intro m hm
  have hmem : m.attrs ∈ preorderAttrs (filterTree atlasKeys (lowerStr q) tree) := by
    rw [preorderAttrs_eq_map]
    exact List.mem_map_of_mem RegionNode.attrs hm
  have hmem2 : m.attrs ∈ preorderAttrs tree :=
    (filterTree_attrs_sublist atlasKeys (lowerStr q) tree).subset hmem
  rw [preorderAttrs_eq_map] at hmem2
  rcases List.mem_map.mp hmem2 with ⟨n, hn, hattr⟩
  exact ⟨n, hn, attrs_eq_fields m n hattr.symm⟩

/-- Witness for C10 at the spec's end-to-end dataset and the query `visp`. -/
theorem filterTree_frame_witness :
    List.Sublist (preorderAttrs (filterTree ["A1"] (lowerStr "visp") demoForest))
        (preorderAttrs demoForest)
    ∧ ∀ m ∈ preorderNodes (filterTree ["A1"] (lowerStr "visp") demoForest),
        ∃ n, n ∈ preorderNodes demoForest ∧ m.key = n.key ∧ m.id = n.id
          ∧ m.name = n.name ∧ m.atlas = n.atlas :=
  filterTree_frame ["A1"] "visp" demoForest (by decide)

/-- The empty pattern occurs at index 0 of every character list. -/
theorem charIndexOf_nil_pat : ∀ l : List Char, charIndexOf [] l = some 0 := by
  intro l
  cases l with
  | nil => simp [charIndexOf, List.isPrefixOf]
  | cons c rest => simp [charIndexOf, List.isPrefixOf]

/-- Every string contains the empty string. -/
theorem strIncludes_empty (s : String) : strIncludes s "" = true := by
  have h : ("" : String).data = [] := rfl
  simp [strIncludes, strIndexOf, h, charIndexOf_nil_pat]

/-- Only the empty forest is equivalent to the empty forest. -/
theorem forestEquiv_nil : ∀ f : Forest, forestEquiv Forest.nil f = true → f = Forest.nil := by
  intro f h
  cases f with
  | nil => rfl
  | cons n t => simp [forestEquiv] at h

mutual
/-- Filtering with the empty query keeps every node (with its children
filtered recursively), up to identifying empty children with no children. -/
theorem filterTree_empty_equiv (atlasKeys : List String) :
    ∀ f : Forest, forestEquiv (filterTree atlasKeys "" f) f = true := by
  intro f
  cases f with
  | nil => rfl
  | cons n rest =>
      cases n with
      | mk k i nm a c =>
          have hname : nameMatches "" (RegionNode.mk k i nm a c) = true := by
            simp [nameMatches, strIncludes_empty]
          rw [filterTree_cons, if_pos (by simp [hname])]
          simp [forestEquiv, nodeEquiv, filterChildren_empty_equiv atlasKeys c,
            filterTree_empty_equiv atlasKeys rest]
theorem filterChildren_empty_equiv (atlasKeys : List String) :
    ∀ c : Children,
      childEquiv (if (filterChildren atlasKeys "" c).hasNodes
          then filterChildren atlasKeys "" c else Children.none) c = true := by
  intro c
  cases c with
  | none => rfl
  | some f =>
      have hef := filterTree_empty_equiv atlasKeys f
      rcases hf : filterTree atlasKeys "" f with hv | ⟨n, t⟩
      · rw [hf] at hef
        have hfnil : f = Forest.nil := forestEquiv_nil f hef
        subst hfnil
        simp [filterChildren, filterTree, Children.hasNodes, childEquiv]
      · simp only [filterChildren]
        rw [hf]
        simp only [Children.hasNodes, if_true]
        show forestEquiv (Forest.cons n t) f = true
        rw [← hf]
        exact hef
end

/-- C3.  Identity on empty query: when the trimmed query is empty the
derived `filteredData` is the input `data` value itself (no filtering
runs), and `filterTree(tree, "")` is observationally equivalent to `tree`,
a node with an empty children sequence being identified with a leaf. -/
theorem filterTree_empty_query_identity :
    (∀ (atlasKeys : List String) (data : Forest) (q : String), trimStr q = "" →
        filteredData atlasKeys data q = data)
    ∧ ∀ (atlasKeys : List String) (tree : Forest),
        forestEquiv (filterTree atlasKeys "" tree) tree = true := by
  constructor
  · intro atlasKeys data q hq
    simp [filteredData, hq]
  · intro atlasKeys tree
    exact filterTree_empty_equiv atlasKeys tree

/-- Witness for C3: a pure-whitespace query leaves the demo data
untouched. -/
theorem filterTree_empty_query_identity_witness :
    filteredData ["A1"] demoForest " " = demoForest :=
  filterTree_empty_query_identity.1 ["A1"] demoForest " " (by decide)

/-- C4.  Inclusion rule and leaf collapse: with a non-empty-after-trim
query, a processed node is included iff it self-matches (name or atlas)
or its filtered children are non-empty; the emitted node carries the
filtered children, demoted to an absent children field when the filtered
sequence is empty.  An atlas field matches only when it holds a string
value, so a `null` atlas value never matches any query — in particular
not the query `"null"`. -/
theorem filterTree_inclusion_rule :
    (∀ (atlasKeys : List String) (q : String) (k : String) (i : Int) (nm : String)
        (a : List (String × Value)) (c : Children) (rest : Forest), trimStr q ≠ "" →
      filterTree atlasKeys (lowerStr q) (.cons (.mk k i nm a c) rest)
        = if selfMatches atlasKeys (lowerStr q) (.mk k i nm a c)
              || (filterChildren atlasKeys (lowerStr q) c).hasNodes
          then .cons (.mk k i nm a (if (filterChildren atlasKeys (lowerStr q) c).hasNodes
              then filterChildren atlasKeys (lowerStr q) c else .none))
            (filterTree atlasKeys (lowerStr q) rest)
          else filterTree atlasKeys (lowerStr q) rest)
    ∧ (∀ (atlasKeys : List String) (searchLower : String) (node : RegionNode),
        atlasMatches atlasKeys searchLower node = true
          ↔ ∃ key, key ∈ atlasKeys ∧ ∃ s, List.lookup key node.atlas = some (Value.str s)
              ∧ strIncludes (lowerStr s) searchLower = true)
    ∧ selfMatches ["A1"] (lowerStr "null")
        (RegionNode.mk "x" 0 "Region" [("A1", Value.null)] Children.none) = false := by
  refine ⟨?_, ?_, by decide⟩
  · intro atlasKeys q k i nm a c rest hq
    simp [filterTree_cons, selfMatches, Bool.or_assoc]
  · intro atlasKeys searchLower node
    constructor
    · intro h
      simp only [atlasMatches, List.any_eq_true] at h
      rcases h with ⟨key, hkey, hp⟩
      rcases hlk : List.lookup key node.atlas with hv | v
      · rw [hlk] at hp
        simp at hp
      · rcases v with s | hv
        · rw [hlk] at hp
          exact ⟨key, hkey, s, hlk, hp⟩
        · rw [hlk] at hp
          simp at hp
    · rintro ⟨key, hkey, s, hlk, hs⟩
      simp only [atlasMatches, List.any_eq_true]
      refine ⟨key, hkey, ?_⟩
      rw [hlk]
      exact hs

/-- Witness for C4 at the matching leaf of the spec's scenario. -/
theorem filterTree_inclusion_rule_witness :
    filterTree ["A1"] (lowerStr "visp")
        (.cons (.mk "r2" 2 "Visual Cortex" [("A1", Value.str "VISp")] .none) .nil)
      = if selfMatches ["A1"] (lowerStr "visp")
              (.mk "r2" 2 "Visual Cortex" [("A1", Value.str "VISp")] .none)
            || (filterChildren ["A1"] (lowerStr "visp") Children.none).hasNodes
        then .cons (.mk "r2" 2 "Visual Cortex" [("A1", Value.str "VISp")]
            (if (filterChildren ["A1"] (lowerStr "visp") Children.none).hasNodes
              then filterChildren ["A1"] (lowerStr "visp") Children.none else .none))
          (filterTree ["A1"] (lowerStr "visp") .nil)
        else filterTree ["A1"] (lowerStr "visp") .nil :=
  filterTree_inclusion_rule.1 ["A1"] "visp" "r2" 2 "Visual Cortex"
    [("A1", Value.str "VISp")] .none .nil (by decide)

/-- C8.  Search-driven auto-expand and match count: with a
non-empty-after-trim query the expansion set becomes the collected keys of
the filtered tree and the match count is their number; on the spec's
end-to-end dataset with query `visp`, the filter keeps `r1` as a
pass-through ancestor with only child `r2`, the expansion set becomes
`["r1", "r2"]` whatever it was before, and the match count is 2. -/
theorem autoExpand_matchCount :
    (∀ (atlasKeys : List String) (data : Forest) (q : String) (prev : List String),
        trimStr q ≠ "" →
      autoExpandEffect atlasKeys data q prev
          = getAllKeys (filterTree atlasKeys (lowerStr q) data)
        ∧ matchCount atlasKeys data q
          = (getAllKeys (filterTree atlasKeys (lowerStr q) data)).length)
    ∧ filteredData ["A1"] demoForest "visp"
        = .cons (.mk "r1" 1 "Cortex" [("A1", Value.null)]
            (.some (.cons (.mk "r2" 2 "Visual Cortex" [("A1", Value.str "VISp")] .none) .nil))) .nil
    ∧ (∀ prev : List String, autoExpandEffect ["A1"] demoForest "visp" prev = ["r1", "r2"])
    ∧ matchCount ["A1"] demoForest "visp" = 2 := by
  refine ⟨?_, by decide, ?_, by decide⟩
  · intro atlasKeys data q prev hq
    constructor <;> simp [autoExpandEffect, matchCount, filteredData, hq]
  · intro prev
    show (if trimStr "visp" = "" then prev
      else getAllKeys (filteredData ["A1"] demoForest "visp")) = ["r1", "r2"]
    rw [if_neg (by decide)]
    decide

/-- Witness for C8's general part at the end-to-end dataset. -/
theorem autoExpand_matchCount_witness :
    autoExpandEffect ["A1"] demoForest "visp" []
        = getAllKeys (filterTree ["A1"] (lowerStr "visp") demoForest)
      ∧ matchCount ["A1"] demoForest "visp"
        = (getAllKeys (filterTree ["A1"] (lowerStr "visp") demoForest)).length :=
  autoExpand_matchCount.1 ["A1"] demoForest "visp" [] (by decide)

/-- What a successful `charIndexOf` means: the pattern is a prefix of the
suffix at the returned index, and the index is in range. -/
theorem charIndexOf_spec : ∀ (l pat : List Char) (i : Nat),
    charIndexOf pat l = some i → List.IsPrefix pat (l.drop i) ∧ i ≤ l.length := by
  intro l
  induction l with
  | nil =>
      intro pat i h
      simp only [charIndexOf] at h
      rcases hp : List.isPrefixOf pat ([] : List Char) with hv | hv
      · rw [hp] at h
        simp at h
      · rw [hp] at h
        simp only [if_true] at h
        have hi : i = 0 := by
          cases h
          rfl
        subst hi
        exact ⟨List.isPrefixOf_iff_prefix.mp hp, Nat.le_refl 0⟩
  | cons c rest ih =>
      intro pat i h
      simp only [charIndexOf] at h
      rcases hp : List.isPrefixOf pat (c :: rest) with hv | hv
      · rw [hp] at h
        simp only [Bool.false_eq_true, if_false] at h
        rcases hr : charIndexOf pat rest with hv2 | j
        · rw [hr] at h
          simp at h
        · rw [hr] at h
          have hi : j + 1 = i := by
            simpa using h
          subst hi
          obtain ⟨hpre, hlen⟩ := ih pat j hr
          refine ⟨?_, ?_⟩
          · simpa using hpre
          · simp
            omega
      · rw [hp] at h
        simp only [if_true] at h
        have hi : i = 0 := by
          cases h
          rfl
        subst hi
        exact ⟨by simpa using List.isPrefixOf_iff_prefix.mp hp, Nat.zero_le _⟩

/-- Consequences of a found case-insensitive occurrence: the three slices
reassemble the text, the matched slice lower-cases to the query, and the
matched slice has exactly the query's length. -/
theorem strIndexOf_found (text search : String) (i : Nat)
    (hidx : strIndexOf (lowerStr text) (lowerStr search) = some i) :
    strTake text i ++ strSlice text i (i + strLength search)
        ++ strDrop text (i + strLength search) = text
    ∧ lowerStr (strSlice text i (i + strLength search)) = lowerStr search
    ∧ strLength (strSlice text i (i + strLength search)) = strLength search := by
  have hspec := charIndexOf_spec (lowerStr text).data (lowerStr search).data i hidx
  obtain ⟨hpre, hle⟩ := hspec
  have hdata1 : (lowerStr text).data = text.data.map Char.toLower := rfl
  have hdata2 : (lowerStr search).data = search.data.map Char.toLower := rfl
  have hL : (lowerStr search).data.length = strLength search := by
    rw [hdata2, List.length_map]
    rfl
  have hlen2 : (lowerStr text).data.length = text.data.length := by
    rw [hdata1, List.length_map]
  have hpatlen := hpre.length_le
  rw [List.length_drop] at hpatlen
  have hiL : i + strLength search ≤ text.data.length := by
    rw [hL] at hpatlen
    omega
  have hslice : (strSlice text i (i + strLength search)).data
      = (text.data.drop i).take (strLength search) := by
    show (text.data.take (i + strLength search)).drop i = _
    rw [List.drop_take]
    congr 1
    omega
  refine ⟨?_, ?_, ?_⟩
  · apply String.ext
    simp only [String.data_append]
    rw [List.append_assoc]
    show text.data.take i ++ ((text.data.take (i + strLength search)).drop i
      ++ text.data.drop (i + strLength search)) = text.data
    rw [List.drop_take, show i + strLength search - i = strLength search from by omega,
      show text.data.drop (i + strLength search)
          = (text.data.drop i).drop (strLength search) from by rw [List.drop_drop],
      List.take_append_drop, List.take_append_drop]
  · apply String.ext
    have hlow : (lowerStr (strSlice text i (i + strLength search))).data
        = ((lowerStr text).data.drop i).take (strLength search) := by
      show (strSlice text i (i + strLength search)).data.map Char.toLower = _
      rw [hslice, hdata1, List.map_take, List.map_drop]
    rw [hlow]
    have htake := List.prefix_iff_eq_take.mp hpre
    rw [hL] at htake
    exact htake.symm
  · show (strSlice text i (i + strLength search)).data.length = strLength search
    rw [hslice, List.length_take, List.length_drop]
    omega

/-- When the query trims to empty or the text is empty the formatter
returns the text as a single plain segment. -/
theorem highlightText_plain_of_empty (text search : String)
    (h : trimStr search = "" ∨ text = "") :
    highlightText text search = [Segment.plain text] := by
  simp only [highlightText]
  rw [if_pos]
  rcases h with h | h <;> simp [h]

/-- When the lower-cased text does not contain the lower-cased query the
formatter returns the text as a single plain segment. -/
theorem highlightText_plain_of_notfound (text search : String)
    (h : strIndexOf (lowerStr text) (lowerStr search) = none) :
    highlightText text search = [Segment.plain text] := by
  by_cases h1 : trimStr search = ""
  · exact highlightText_plain_of_empty text search (Or.inl h1)
  by_cases h2 : text = ""
  · exact highlightText_plain_of_empty text search (Or.inr h2)
  simp only [highlightText, h]
  rw [if_neg (by simp [h1, h2])]

/-- When the lower-cased text contains the lower-cased query the formatter
returns prefix, matched span and suffix. -/
theorem highlightText_found (text search : String) (i : Nat)
    (h1 : trimStr search ≠ "") (h2 : text ≠ "")
    (hidx : strIndexOf (lowerStr text) (lowerStr search) = some i) :
    highlightText text search
      = [Segment.plain (strTake text i),
         Segment.matched (strSlice text i (i + strLength search)),
         Segment.plain (strDrop text (i + strLength search))] := by
  simp only [highlightText, hidx]
  rw [if_neg (by simp [h1, h2])]

/-- C6.  Highlight formatter correctness: an empty-after-trim query, an
empty text, or an absent case-insensitive occurrence yields the text as
one plain segment; otherwise the formatter emits exactly three segments —
plain prefix, the matched span at the leftmost case-insensitive
occurrence, and plain suffix — where the three reassemble the original
text (so the span carries the text's original casing), the span
lower-cases to the query, and the span has the query's length.  The
spec's three examples are verified, with empty segments invisible when
rendered. -/
theorem highlightText_correct :
    (∀ text search : String, trimStr search = "" ∨ text = "" →
        highlightText text search = [Segment.plain text])
    ∧ (∀ text search : String,
        strIndexOf (lowerStr text) (lowerStr search) = none →
          highlightText text search = [Segment.plain text])
    ∧ (∀ (text search : String) (i : Nat), trimStr search ≠ "" → text ≠ "" →
        strIndexOf (lowerStr text) (lowerStr search) = some i →
          highlightText text search
              = [Segment.plain (strTake text i),
                 Segment.matched (strSlice text i (i + strLength search)),
                 Segment.plain (strDrop text (i + strLength search))]
            ∧ strTake text i ++ strSlice text i (i + strLength search)
                ++ strDrop text (i + strLength search) = text
            ∧ lowerStr (strSlice text i (i + strLength search)) = lowerStr search
            ∧ strLength (strSlice text i (i + strLength search)) = strLength search)
    ∧ highlightText "Hippocampus" "cam"
        = [Segment.plain "Hippo", Segment.matched "cam", Segment.plain "pus"]
    ∧ visibleSegments (highlightText "CA1" "ca1") = [Segment.matched "CA1"]
    ∧ highlightText "Thalamus" "xyz" = [Segment.plain "Thalamus"] := by
  refine ⟨highlightText_plain_of_empty, highlightText_plain_of_notfound, ?_,
    by decide, by decide, by decide⟩
  intro text search i h1 h2 hidx
  exact ⟨highlightText_found text search i h1 h2 hidx, strIndexOf_found text search i hidx⟩

/-- Witness for C6's found case at `highlight("Hippocampus", "cam")`,
whose leftmost case-insensitive occurrence is at index 5. -/
theorem highlightText_correct_witness :
    highlightText "Hippocampus" "cam"
        = [Segment.plain (strTake "Hippocampus" 5),
           Segment.matched (strSlice "Hippocampus" 5 (5 + strLength "cam")),
           Segment.plain (strDrop "Hippocampus" (5 + strLength "cam"))]
      ∧ strTake "Hippocampus" 5 ++ strSlice "Hippocampus" 5 (5 + strLength "cam")
          ++ strDrop "Hippocampus" (5 + strLength "cam") = "Hippocampus"
      ∧ lowerStr (strSlice "Hippocampus" 5 (5 + strLength "cam")) = lowerStr "cam"
      ∧ strLength (strSlice "Hippocampus" 5 (5 + strLength "cam")) = strLength "cam" :=
  highlightText_correct.2.2.1 "Hippocampus" "cam" 5 (by decide) (by decide) (by decide)
